import Mathlib

/-!
Verification development for the manifesto-reader repository's search and
navigation core.  The definitions below are shallow embeddings of the
TypeScript source:

* `search`, `highlightMatches`, `escapeHtml`, `getNextMatchIndex`,
  `getPreviousMatchIndex` from `src/lib/tableOfContents.ts`
  (the `searchEngine` / `searchNavigation` modules);
* the `useSearch` hook state and its `performSearch` / `nextMatch` /
  `previousMatch` operations from `src/unnamed/part_008` (`hooks/useSearch.ts`);
* the `goToMatch` operation from the implementation contract in
  `src/specs/001-manifesto-reader/contracts/README.md`;
* the `usePageVisibility` hook from
  `src/components/manifesto/search/SearchBar.tsx`.

JavaScript strings are modelled as `List Char`; `String.prototype.toLowerCase`
is modelled per character by `Char.toLower` (the texts at issue are ASCII,
where the two agree and lower-casing preserves length).  JavaScript numbers
holding array indices are modelled as `Nat`, except the navigator's current
match index, which can be `-1` and is modelled as `Int`.  Intersection
ratios are modelled as `ℚ`.  `Array.prototype.sort` (a stable sort) is
modelled by `List.insertionSort`, which is also stable.
-/

/-- Characters removed by JavaScript `String.prototype.trim` (the ASCII
whitespace forms plus no-break space; the only ones relevant here). -/
def isJsWhitespace (c : Char) : Bool :=
  c = ' ' || c = '\t' || c = '\n' || c = '\r' || c = '\x0b' || c = '\x0c' ||
    c = ' '

/-- Model of JavaScript `String.prototype.trim`. -/
def jsTrim (s : List Char) : List Char :=
  ((s.dropWhile isJsWhitespace).reverse.dropWhile isJsWhitespace).reverse

/-- Model of JavaScript `String.prototype.substring`: both arguments are
clamped to the string length and swapped if out of order. -/
def jsSubstring (s : List Char) (a b : Nat) : List Char :=
  let a' := min a s.length
  let b' := min b s.length
  (s.drop (min a' b')).take (max a' b' - min a' b')

/-- Per-character model of `String.prototype.toLowerCase`. -/
def toLowerStr (s : List Char) : List Char :=
  s.map Char.toLower

/-- Index of the first occurrence of `pat` in `s` (the position of the
leftmost suffix of `s` that `pat` is a prefix of), if any. -/
def firstOcc (pat : List Char) : List Char → Option Nat
  | [] => if pat = [] then some 0 else none
  | c :: rest =>
      if pat.isPrefixOf (c :: rest) then some 0
      else (firstOcc pat rest).map (· + 1)

/-- Model of JavaScript `String.prototype.indexOf(pat, start)` (as an
`Option` instead of the `-1` sentinel). -/
def indexOfFrom (pat s : List Char) (start : Nat) : Option Nat :=
  (firstOcc pat (s.drop start)).map (· + start)

/-- The `SearchMatch` record from `src/types/index.ts`. -/
structure SearchMatch where
  id : String
  pageNumber : Nat
  matchIndexOnPage : Nat
  globalIndex : Nat
  startOffset : Nat
  endOffset : Nat
  matchedText : List Char
  isActive : Bool
deriving Repr, DecidableEq

/-- The inner `while` loop of `search` in `src/lib/tableOfContents.ts`:
repeatedly locate `query` (lower-cased) in the page's lower-cased text,
starting each scan right after the end of the previous occurrence.  The
loop advances `startOffset` by at least one per iteration whenever the
query is non-empty (`search` only calls it then), so the fuel
`text.length + 1` is never exhausted before `indexOf` fails; see
`scanPage_fuel_stable`. -/
def scanPage (query text : List Char) (page : Nat) :
    Nat → Nat → Nat → Nat → List SearchMatch
  | 0, _, _, _ => []
  | fuel + 1, start, mip, gi =>
      match indexOfFrom (toLowerStr query) (toLowerStr text) start with
      | none => []
      | some i =>
          { id := toString page ++ "-" ++ toString mip
            pageNumber := page
            matchIndexOnPage := mip
            globalIndex := gi
            startOffset := i
            endOffset := i + query.length
            matchedText := jsSubstring text i (i + query.length)
            isActive := gi == 0 } ::
            scanPage query text page fuel (i + query.length) (mip + 1) (gi + 1)

/-- Lookup in the page-text map (`pageTexts.get(pageNumber)!`; the source
only looks up keys of the map, so the default is never hit there). -/
def getText (pageTexts : List (Nat × List Char)) (p : Nat) : List Char :=
  ((pageTexts.find? (fun e => e.fst == p)).map Prod.snd).getD []

/-- The outer `for` loop of `search`: scan the pages in ascending
page-number order, threading the running `globalIndex` across pages while
`matchIndexOnPage` restarts at `0` on each page. -/
def searchPages (query : List Char) (pageTexts : List (Nat × List Char)) :
    List Nat → Nat → List SearchMatch
  | [], _ => []
  | p :: rest, gi =>
      let text := getText pageTexts p
      let ms := scanPage query text p (text.length + 1) 0 0 gi
      ms ++ searchPages query pageTexts rest (gi + ms.length)

/-- The `search` function of `src/lib/tableOfContents.ts`: empty result for
a blank query, otherwise case-insensitive non-overlapping occurrences over
the pages in ascending key order.  The page-number map is modelled as an
association list; `Array.from(pageTexts.keys()).sort((a, b) => a - b)` is
the ascending sort of the key list. -/
def search (query : List Char) (pageTexts : List (Nat × List Char)) :
    List SearchMatch :=
  if jsTrim query = [] then []
  else
    searchPages query pageTexts
      (List.insertionSort (· ≤ ·) (pageTexts.map Prod.fst)) 0

example :
    (search "energy".data [(1, "Energy now".data)]).map
      (fun m => (m.pageNumber, m.startOffset, m.endOffset, m.matchedText)) =
    [(1, 0, 6, "Energy".data)] := by decide

example : (search "aa".data [(1, "aaa".data)]).length = 1 := by decide

example :
    (search "a".data [(2, "ba".data), (1, "ab".data)]).map
      (fun m => (m.pageNumber, m.globalIndex, m.matchIndexOnPage,
        m.startOffset, m.isActive, m.id)) =
    [(1, 0, 0, 0, true, "1-0"), (2, 1, 0, 1, false, "2-0")] := by decide

example : search "   ".data [(1, "a".data)] = [] := by decide

/-- The `escapeHtml` helper of `src/lib/tableOfContents.ts`.  The source
routes the text through a detached DOM node (`div.textContent` then
`div.innerHTML`), which escapes exactly the markup-significant characters
`&`, `<` and `>`. -/
def escapeHtml (s : List Char) : List Char :=
  (s.map (fun c =>
    if c = '&' then "&amp;".data
    else if c = '<' then "&lt;".data
    else if c = '>' then "&gt;".data
    else [c])).flatten

/-- The opening `<mark>` tag emitted by `highlightMatches`: class
`bg-yellow-200` for the active match, `bg-yellow-100` otherwise. -/
def markTag (active : Bool) (id : String) : List Char :=
  ("<mark class=\"" ++
    (if active then "bg-yellow-200" else "bg-yellow-100") ++
    "\" data-match-id=\"" ++ id ++ "\">").data

/-- The `for` loop of `highlightMatches`, with the loop state
(`result`, `lastIndex`) passed explicitly: emit the escaped gap before
each match, then the match text wrapped in a `<mark>` tag. -/
def highlightGo (text : List Char) (act : Option String) :
    List SearchMatch → Nat → List Char → List Char
  | [], last, acc => acc ++ escapeHtml (jsSubstring text last text.length)
  | m :: rest, last, acc =>
      highlightGo text act rest m.endOffset
        (acc ++ escapeHtml (jsSubstring text last m.startOffset) ++
          markTag (act == some m.id) m.id ++ escapeHtml m.matchedText ++
          "</mark>".data)

/-- The `highlightMatches` function of `src/lib/tableOfContents.ts`:
return the text unchanged when there are no matches, otherwise sort the
matches by start offset (stably) and interleave escaped gaps with
`<mark>`-wrapped match texts. -/
def highlightMatches (text : List Char) (ms : List SearchMatch)
    (act : Option String) : List Char :=
  if ms.length = 0 then text
  else
    highlightGo text act
      (List.insertionSort (fun a b => a.startOffset ≤ b.startOffset) ms)
      0 []

/-- The `getNextMatchIndex` function of `src/lib/tableOfContents.ts`. -/
def getNextMatchIndex (ms : List SearchMatch) (currentIndex : Int) :
    Int :=
  if ms.length = 0 then -1
  else (currentIndex + 1) % (ms.length : Int)

/-- The `getPreviousMatchIndex` function of `src/lib/tableOfContents.ts`. -/
def getPreviousMatchIndex (ms : List SearchMatch) (currentIndex : Int) :
    Int :=
  if ms.length = 0 then -1
  else (currentIndex - 1 + (ms.length : Int)) % (ms.length : Int)

/-- The `results` record of the `useSearch` hook state
(`SearchState.results` in `src/types/index.ts`). -/
structure SearchResults where
  query : List Char
  matchList : List SearchMatch
  totalMatches : Nat
  currentMatchIndex : Int
deriving Repr, DecidableEq

/-- The `performSearch` operation of `hooks/useSearch.ts`
(`src/unnamed/part_008`): a blank query clears the results, otherwise the
results are rebuilt from `search` with the current index at `0` when
matches exist and `-1` otherwise.  (`isValidSearchQuery` is
`query.trim().length > 0`.) -/
def performSearch (q : List Char) (pageTexts : List (Nat × List Char)) :
    Option SearchResults :=
  if (jsTrim q).length = 0 then none
  else
    let ms := search q pageTexts
    some { query := q, matchList := ms, totalMatches := ms.length,
           currentMatchIndex := if ms.length > 0 then 0 else -1 }

/-- The `nextMatch` operation of `hooks/useSearch.ts`: no-op without
results or with an empty match list, otherwise advance the current index
by one modulo `totalMatches`. -/
def nextMatch : Option SearchResults → Option SearchResults
  | none => none
  | some r =>
      if r.matchList.length = 0 then some r
      else some { r with
        currentMatchIndex := (r.currentMatchIndex + 1) % (r.totalMatches : Int) }

/-- The `previousMatch` operation of `hooks/useSearch.ts`: no-op without
results or with an empty match list, otherwise decrement the current index
by one modulo `totalMatches`, wrapping to the last match. -/
def previousMatch : Option SearchResults → Option SearchResults
  | none => none
  | some r =>
      if r.matchList.length = 0 then some r
      else some { r with
        currentMatchIndex :=
          (r.currentMatchIndex - 1 + (r.totalMatches : Int)) %
            (r.totalMatches : Int) }

/-- The `goToMatch` operation from the `useSearch` implementation contract
in `src/specs/001-manifesto-reader/contracts/README.md` (the shipped hook
omits it): silently return with the state unchanged when there are no
results or the index is out of range, otherwise set the current index. -/
def goToMatch : Option SearchResults → Int → Option SearchResults
  | none, _ => none
  | some r, i =>
      if i < 0 ∨ (r.matchList.length : Int) ≤ i then some r
      else some { r with currentMatchIndex := i }

/-- Apply a sequence of navigation operations (`true` for `nextMatch`,
`false` for `previousMatch`). -/
def applyNav : List Bool → Option SearchResults → Option SearchResults
  | [], st => st
  | b :: rest, st =>
      applyNav rest (if b then nextMatch st else previousMatch st)

/-- The state of the `usePageVisibility` hook in
`src/components/manifesto/search/SearchBar.tsx`: the ascending list of
visible page numbers and the active page (initially `1`). -/
structure VisState where
  visiblePages : List Nat
  activePage : Nat
deriving Repr, DecidableEq

/-- The initial `usePageVisibility` state. -/
def initVis : VisState := { visiblePages := [], activePage := 1 }

/-- One `IntersectionObserver` entry processed by `usePageVisibility`:
entries with page number `0` are skipped (`if (!pageNumber) return`); an
intersecting page is added to the visible list (if absent, re-sorting
ascending) and becomes the active page exactly when its intersection ratio
reaches the threshold; a non-intersecting page is removed from the visible
list, with the active page untouched. -/
def reportVisibility (threshold : ℚ) (st : VisState) (page : Nat) (r : ℚ)
    (intersecting : Bool) : VisState :=
  if page = 0 then st
  else if intersecting then
    { visiblePages :=
        if st.visiblePages.contains page then st.visiblePages
        else List.insertionSort (· ≤ ·) (st.visiblePages ++ [page])
      activePage := if threshold ≤ r then page else st.activePage }
  else
    { st with visiblePages := st.visiblePages.filter (fun p => p ≠ page) }

/-- Fold a sequence of visibility events over the initial state. -/
def runVis (threshold : ℚ) (events : List (Nat × ℚ × Bool)) : VisState :=
  events.foldl (fun st e => reportVisibility threshold st e.1 e.2.1 e.2.2)
    initVis

/-- Follows the spec's words for `highlight` (§4.2), for comparison with
`highlightMatches`: walking the matches in ascending start-offset order,
each gap of non-matched text passes through escaped, and each match span
is wrapped in a marker whose state is active exactly for the match whose
id equals the active-match id (`markTag (act == some m.id)`). -/
def specRender (text : List Char) (act : Option String) :
    List SearchMatch → Nat → List Char
  | [], last => escapeHtml (text.drop last)
  | m :: rest, last =>
      escapeHtml ((text.drop last).take (m.startOffset - last)) ++
        markTag (act == some m.id) m.id ++ escapeHtml m.matchedText ++
        "</mark>".data ++ specRender text act rest m.endOffset

/-- The raw spans underlying `specRender`: the same decomposition of the
text into gaps and match spans, with no escaping and no markers.  Its
concatenation reconstructs the original text (claim C9). -/
def specRaw (text : List Char) : List SearchMatch → Nat → List Char
  | [], last => text.drop last
  | m :: rest, last =>
      (text.drop last).take (m.startOffset - last) ++ m.matchedText ++
        specRaw text rest m.endOffset

example :
    runVis (mkRat 1 2) [(5, mkRat 4 5, true), (6, mkRat 3 5, true)] =
      { visiblePages := [5, 6], activePage := 6 } := by decide

example :
    runVis (mkRat 1 2) [(1, mkRat 3 5, true), (2, mkRat 2 5, true), (1, 0, false)] =
      { visiblePages := [2], activePage := 1 } := by decide

example :
    highlightMatches "<b>".data [] none = "<b>".data := by decide

example :
    nextMatch (performSearch "a".data [(1, "aa".data)]) =
      some { query := "a".data,
             matchList := search "a".data [(1, "aa".data)],
             totalMatches := 2, currentMatchIndex := 1 } := by decide

/-- Concrete two-match navigator state (query "a" over page text "aa"),
as built by `performSearch`, with the current index moved to 1. -/
def navState2 : SearchResults :=
  { query := "a".data, matchList := search "a".data [(1, "aa".data)],
    totalMatches := 2, currentMatchIndex := 1 }

/-- Concrete one-match navigator state (query "a" over page text "ab"). -/
def navState1 : SearchResults :=
  { query := "a".data, matchList := search "a".data [(1, "ab".data)],
    totalMatches := 1, currentMatchIndex := 0 }

/-- Concrete one-match highlight fixture over the text "xay": the match
covers the "a" at offset 1. -/
def highlightMatch1 : SearchMatch :=
  { id := "1-0", pageNumber := 1, matchIndexOnPage := 0, globalIndex := 0,
    startOffset := 1, endOffset := 2, matchedText := "a".data,
    isActive := true }

/-! Basic facts about the string-scanning helpers. -/

theorem jsTrim_ne_nil_of_ne {q : List Char} (h : jsTrim q ≠ []) : q ≠ [] := by
  intro hq
  subst hq
  exact h rfl

theorem toLowerStr_length (s : List Char) :
    (toLowerStr s).length = s.length := by
  simp [toLowerStr]

theorem toLowerStr_ne_nil {s : List Char} (h : s ≠ []) :
    toLowerStr s ≠ [] := by
  simpa [toLowerStr, List.map_eq_nil_iff] using h

theorem firstOcc_found {pat s : List Char} {j : Nat}
    (h : firstOcc pat s = some j) : pat <+: s.drop j := by
  induction s generalizing j with
  | nil =>
    by_cases hp : pat = [] <;> simp [firstOcc, hp] at h
    simp [hp, ← h]
  | cons c rest ih =>
    by_cases hp : pat.isPrefixOf (c :: rest)
    · simp [firstOcc, hp] at h
      subst h
      simpa using List.isPrefixOf_iff_prefix.mp hp
    · simp [firstOcc, hp] at h
      obtain ⟨j', hj', rfl⟩ := h
      simpa using ih hj'

theorem firstOcc_le {pat s : List Char} {j : Nat}
    (h : firstOcc pat s = some j) : j ≤ s.length := by
  induction s generalizing j with
  | nil =>
    by_cases hp : pat = [] <;> simp [firstOcc, hp] at h
    omega
  | cons c rest ih =>
    by_cases hp : pat.isPrefixOf (c :: rest)
    · simp [firstOcc, hp] at h
      omega
    · simp [firstOcc, hp] at h
      obtain ⟨j', hj', rfl⟩ := h
      have := ih hj'
      simp
      omega

theorem firstOcc_fits {pat s : List Char} {j : Nat}
    (h : firstOcc pat s = some j) : j + pat.length ≤ s.length := by
  have h1 := (firstOcc_found h).length_le
  have h2 := firstOcc_le h
  rw [List.length_drop] at h1
  omega

theorem indexOfFrom_some {pat s : List Char} {start i : Nat}
    (h : indexOfFrom pat s start = some i) :
    start ≤ i ∧ pat <+: s.drop i := by
  obtain ⟨j, hj, rfl⟩ := Option.map_eq_some'.mp h
  have hpre := firstOcc_found hj
  rw [List.drop_drop] at hpre
  exact ⟨Nat.le_add_left start j, by simpa [Nat.add_comm] using hpre⟩

theorem indexOfFrom_fits {pat s : List Char} {start i : Nat} (hp : pat ≠ [])
    (h : indexOfFrom pat s start = some i) : i + pat.length ≤ s.length := by
  obtain ⟨j, hj, rfl⟩ := Option.map_eq_some'.mp h
  have hfit := firstOcc_fits hj
  rw [List.length_drop] at hfit
  have hs : start ≤ s.length := by
    by_contra hgt
    push_neg at hgt
    rw [List.drop_eq_nil_of_le (le_of_lt hgt)] at hj
    simp [firstOcc, hp] at hj
  omega

theorem indexOfFrom_none_of_big {pat s : List Char} {start : Nat}
    (hp : pat ≠ []) (hs : s.length < start) :
    indexOfFrom pat s start = none := by
  rw [indexOfFrom, List.drop_eq_nil_of_le (le_of_lt hs)]
  simp [firstOcc, hp]

theorem jsSubstring_eq {s : List Char} {a b : Nat} (hab : a ≤ b)
    (hb : b ≤ s.length) :
    jsSubstring s a b = (s.drop a).take (b - a) := by
  simp only [jsSubstring]
  congr 1
  · omega
  · congr 1
    omega

/-! Structural facts about the per-page scan loop. -/

theorem scanPage_shape {query text : List Char} {page : Nat} (fuel : Nat) :
    ∀ start mip gi m, m ∈ scanPage query text page fuel start mip gi →
      m.pageNumber = page ∧ start ≤ m.startOffset ∧
        m.endOffset = m.startOffset + query.length ∧
        toLowerStr query <+: (toLowerStr text).drop m.startOffset ∧
        m.matchedText =
          jsSubstring text m.startOffset (m.startOffset + query.length) ∧
        m.isActive = (m.globalIndex == 0) := by
  induction fuel with
  | zero =>
    intro start mip gi m hm
    simp [scanPage] at hm
  | succ fuel ih =>
    intro start mip gi m hm
    cases hidx : indexOfFrom (toLowerStr query) (toLowerStr text) start with
    | none => simp [scanPage, hidx] at hm
    | some i =>
      simp only [scanPage, hidx] at hm
      rcases List.mem_cons.mp hm with hm | hm
      · obtain ⟨hle, hpre⟩ := indexOfFrom_some hidx
        subst hm
        exact ⟨rfl, hle, rfl, hpre, rfl, rfl⟩
      · obtain ⟨hle, -⟩ := indexOfFrom_some hidx
        obtain ⟨h1, h2, h3, h4, h5, h6⟩ := ih _ _ _ _ hm
        exact ⟨h1, by omega, h3, h4, h5, h6⟩

theorem scanPage_bound {query text : List Char} {page : Nat} (hq : query ≠ [])
    (fuel : Nat) :
    ∀ start mip gi m, m ∈ scanPage query text page fuel start mip gi →
      m.startOffset + query.length ≤ text.length ∧
      m.matchedText = (text.drop m.startOffset).take query.length := by
  induction fuel with
  | zero =>
    intro start mip gi m hm
    simp [scanPage] at hm
  | succ fuel ih =>
    intro start mip gi m hm
    cases hidx : indexOfFrom (toLowerStr query) (toLowerStr text) start with
    | none => simp [scanPage, hidx] at hm
    | some i =>
      simp only [scanPage, hidx] at hm
      rcases List.mem_cons.mp hm with hm | hm
      · have hfit := indexOfFrom_fits (toLowerStr_ne_nil hq) hidx
        rw [toLowerStr_length, toLowerStr_length] at hfit
        subst hm
        refine ⟨hfit, ?_⟩
        show jsSubstring text i (i + query.length) = _
        rw [jsSubstring_eq (Nat.le_add_right i query.length) hfit]
        congr 1
        omega
      · exact ih _ _ _ _ hm

theorem scanPage_getElem {query text : List Char} {page : Nat} (fuel : Nat) :
    ∀ start mip gi j m,
      (scanPage query text page fuel start mip gi)[j]? = some m →
      m.matchIndexOnPage = mip + j ∧ m.globalIndex = gi + j := by
  induction fuel with
  | zero =>
    intro start mip gi j m h
    simp [scanPage] at h
  | succ fuel ih =>
    intro start mip gi j m h
    cases hidx : indexOfFrom (toLowerStr query) (toLowerStr text) start with
    | none => simp [scanPage, hidx] at h
    | some i =>
      simp only [scanPage, hidx] at h
      cases j with
      | zero =>
        simp only [List.getElem?_cons_zero, Option.some.injEq] at h
        subst h
        exact ⟨by simp, by simp⟩
      | succ j' =>
        rw [List.getElem?_cons_succ] at h
        obtain ⟨h1, h2⟩ := ih _ _ _ _ _ h
        exact ⟨by omega, by omega⟩

theorem scanPage_pairwise {query text : List Char} {page : Nat} (fuel : Nat) :
    ∀ start mip gi,
      (scanPage query text page fuel start mip gi).Pairwise
        (fun m1 m2 => m1.startOffset + query.length ≤ m2.startOffset) := by
  induction fuel with
  | zero =>
    intro start mip gi
    simp [scanPage]
  | succ fuel ih =>
    intro start mip gi
    cases hidx : indexOfFrom (toLowerStr query) (toLowerStr text) start with
    | none => simp [scanPage, hidx]
    | some i =>
      simp only [scanPage, hidx]
      refine List.pairwise_cons.mpr ⟨?_, ih _ _ _⟩
      intro m' hm'
      exact (scanPage_shape fuel _ _ _ _ hm').2.1

theorem scanPage_none_of_big {query text : List Char} {page : Nat}
    (hq : query ≠ []) {start : Nat} (hs : text.length < start)
    (fuel mip gi : Nat) :
    scanPage query text page fuel start mip gi = [] := by
  cases fuel with
  | zero => rfl
  | succ fuel =>
    have hn : indexOfFrom (toLowerStr query) (toLowerStr text) start = none :=
      indexOfFrom_none_of_big (toLowerStr_ne_nil hq) (by rwa [toLowerStr_length])
    simp [scanPage, hn]

theorem scanPage_fuel_stable {query text : List Char} {page : Nat}
    (hq : query ≠ []) (fuel₁ : Nat) :
    ∀ fuel₂ start mip gi,
      text.length + 1 - start ≤ fuel₁ → text.length + 1 - start ≤ fuel₂ →
      scanPage query text page fuel₁ start mip gi =
        scanPage query text page fuel₂ start mip gi := by
  induction fuel₁ with
  | zero =>
    intro fuel₂ start mip gi h1 h2
    have hs : text.length < start := by omega
    rw [scanPage_none_of_big hq hs, scanPage_none_of_big hq hs]
  | succ f1 ih =>
    intro fuel₂ start mip gi h1 h2
    by_cases hs : text.length < start
    · rw [scanPage_none_of_big hq hs, scanPage_none_of_big hq hs]
    · push_neg at hs
      cases fuel₂ with
      | zero => omega
      | succ f2 =>
        cases hidx : indexOfFrom (toLowerStr query) (toLowerStr text) start with
        | none => simp [scanPage, hidx]
        | some i =>
          simp only [scanPage, hidx]
          have hfit := indexOfFrom_fits (toLowerStr_ne_nil hq) hidx
          rw [toLowerStr_length, toLowerStr_length] at hfit
          have hle := (indexOfFrom_some hidx).1
          have hql : 0 < query.length := List.length_pos.mpr hq
          rw [ih f2 (i + query.length) (mip + 1) (gi + 1) (by omega) (by omega)]

/-! Structural facts about the cross-page loop. -/

theorem searchPages_mem {query : List Char}
    {pageTexts : List (Nat × List Char)} :
    ∀ pages gi m, m ∈ searchPages query pageTexts pages gi →
      m.pageNumber ∈ pages ∧
      m.endOffset = m.startOffset + query.length ∧
      toLowerStr query <+:
        (toLowerStr (getText pageTexts m.pageNumber)).drop m.startOffset ∧
      m.isActive = (m.globalIndex == 0) := by
  intro pages
  induction pages with
  | nil =>
    intro gi m hm
    simp [searchPages] at hm
  | cons p rest ih =>
    intro gi m hm
    simp only [searchPages] at hm
    rcases List.mem_append.mp hm with hm | hm
    · obtain ⟨h1, -, h3, h4, -, h6⟩ := scanPage_shape _ _ _ _ _ hm
      exact ⟨by rw [h1]; exact List.mem_cons_self p rest, h3,
        by rw [h1]; exact h4, h6⟩
    · obtain ⟨h1, h2, h3, h4⟩ := ih _ _ hm
      exact ⟨List.mem_cons_of_mem _ h1, h2, h3, h4⟩

theorem searchPages_bound {query : List Char}
    {pageTexts : List (Nat × List Char)} (hq : query ≠ []) :
    ∀ pages gi m, m ∈ searchPages query pageTexts pages gi →
      m.startOffset + query.length ≤ (getText pageTexts m.pageNumber).length ∧
      m.matchedText =
        ((getText pageTexts m.pageNumber).drop m.startOffset).take
          query.length := by
  intro pages
  induction pages with
  | nil =>
    intro gi m hm
    simp [searchPages] at hm
  | cons p rest ih =>
    intro gi m hm
    simp only [searchPages] at hm
    rcases List.mem_append.mp hm with hm | hm
    · have h1 := (scanPage_shape _ _ _ _ _ hm).1
      obtain ⟨h2, h3⟩ := scanPage_bound hq _ _ _ _ _ hm
      exact ⟨by rw [h1]; exact h2, by rw [h1]; exact h3⟩
    · exact ih _ _ hm

theorem searchPages_getElem {query : List Char}
    {pageTexts : List (Nat × List Char)} :
    ∀ pages gi j m, (searchPages query pageTexts pages gi)[j]? = some m →
      m.globalIndex = gi + j := by
  intro pages
  induction pages with
  | nil =>
    intro gi j m h
    simp [searchPages] at h
  | cons p rest ih =>
    intro gi j m h
    simp only [searchPages] at h
    rw [List.getElem?_append] at h
    split at h
    · exact (scanPage_getElem _ _ _ _ _ _ h).2
    · rename_i hge
      push_neg at hge
      have := ih _ _ _ h
      omega

theorem searchPages_pairwise {query : List Char}
    {pageTexts : List (Nat × List Char)} (hq : query ≠ []) :
    ∀ pages gi, pages.Pairwise (· < ·) →
      (searchPages query pageTexts pages gi).Pairwise
        (fun m1 m2 => m1.pageNumber < m2.pageNumber ∨
          (m1.pageNumber = m2.pageNumber ∧
            m1.startOffset < m2.startOffset)) := by
  intro pages
  induction pages with
  | nil =>
    intro gi hp
    simp [searchPages]
  | cons p rest ih =>
    intro gi hp
    simp only [searchPages]
    rw [List.pairwise_append]
    refine ⟨?_, ih _ (List.pairwise_cons.mp hp).2, ?_⟩
    · refine List.Pairwise.imp_of_mem ?_ (scanPage_pairwise _ _ _ _)
      intro m1 m2 h1 h2 hr
      have e1 := (scanPage_shape _ _ _ _ _ h1).1
      have e2 := (scanPage_shape _ _ _ _ _ h2).1
      have hql : 0 < query.length := List.length_pos.mpr hq
      right
      exact ⟨by rw [e1, e2], by omega⟩
    · intro m1 h1 m2 h2
      have e1 := (scanPage_shape _ _ _ _ _ h1).1
      have e2 := (searchPages_mem _ _ _ h2).1
      left
      rw [e1]
      exact (List.pairwise_cons.mp hp).1 _ e2

theorem searchPages_disjoint {query : List Char}
    {pageTexts : List (Nat × List Char)} :
    ∀ pages gi, pages.Pairwise (· < ·) →
      (searchPages query pageTexts pages gi).Pairwise
        (fun m1 m2 => m1.pageNumber = m2.pageNumber →
          m1.endOffset ≤ m2.startOffset) := by
  intro pages
  induction pages with
  | nil =>
    intro gi hp
    simp [searchPages]
  | cons p rest ih =>
    intro gi hp
    simp only [searchPages]
    rw [List.pairwise_append]
    refine ⟨?_, ih _ (List.pairwise_cons.mp hp).2, ?_⟩
    · refine List.Pairwise.imp_of_mem ?_ (scanPage_pairwise _ _ _ _)
      intro m1 m2 h1 h2 hr heq
      have e3 := (scanPage_shape _ _ _ _ _ h1).2.2.1
      omega
    · intro m1 h1 m2 h2 heq
      have e1 := (scanPage_shape _ _ _ _ _ h1).1
      have e2 := (searchPages_mem _ _ _ h2).1
      have := (List.pairwise_cons.mp hp).1 _ e2
      omega

theorem searchPages_mip {query : List Char}
    {pageTexts : List (Nat × List Char)} :
    ∀ pages, pages.Pairwise (· < ·) → ∀ gi j m,
      (searchPages query pageTexts pages gi)[j]? = some m →
      m.matchIndexOnPage =
        ((searchPages query pageTexts pages gi).take j).countP
          (fun m' => m'.pageNumber == m.pageNumber) := by
  intro pages
  induction pages with
  | nil =>
    intro hp gi j m h
    simp [searchPages] at h
  | cons p rest ih =>
    intro hp gi j m h
    simp only [searchPages] at h ⊢
    rw [List.getElem?_append] at h
    rw [List.take_append_eq_append_take, List.countP_append]
    split at h
    · rename_i hlt
      have hmem := List.getElem?_mem h
      have e1 := (scanPage_shape _ _ _ _ _ hmem).1
      have hmip := (scanPage_getElem _ _ _ _ _ _ h).1
      rw [Nat.sub_eq_zero_of_le (le_of_lt hlt)]
      have hall :
          (((scanPage query (getText pageTexts p) p
              ((getText pageTexts p).length + 1) 0 0 gi).take j).countP
            (fun m' => m'.pageNumber == m.pageNumber)) =
          ((scanPage query (getText pageTexts p) p
              ((getText pageTexts p).length + 1) 0 0 gi).take j).length := by
        refine List.countP_eq_length.mpr ?_
        intro a ha
        have ea := (scanPage_shape _ _ _ _ _ (List.take_subset _ _ ha)).1
        simp [ea, e1]
      rw [hall, List.length_take]
      simpa using by omega
    · rename_i hge
      push_neg at hge
      have hmem := List.getElem?_mem h
      have e2 := (searchPages_mem _ _ _ hmem).1
      have hlt2 := (List.pairwise_cons.mp hp).1 _ e2
      have hih := ih (List.pairwise_cons.mp hp).2 _ _ _ h
      rw [List.take_of_length_le hge]
      have hz :
          ((scanPage query (getText pageTexts p) p
              ((getText pageTexts p).length + 1) 0 0 gi).countP
            (fun m' => m'.pageNumber == m.pageNumber)) = 0 := by
        refine List.countP_eq_zero.mpr ?_
        intro a ha
        have ea := (scanPage_shape _ _ _ _ _ ha).1
        simp only [ea, beq_iff_eq]
        omega
      rw [hz, Nat.zero_add]
      exact hih

/-- Ascending sort of nodup map keys is strictly increasing. -/
theorem sortedKeys_pairwise (pageTexts : List (Nat × List Char))
    (hnd : (pageTexts.map Prod.fst).Nodup) :
    (List.insertionSort (· ≤ ·) (pageTexts.map Prod.fst)).Pairwise
      (· < ·) := by
  have hs := List.sorted_insertionSort (fun a b : Nat => a ≤ b)
    (pageTexts.map Prod.fst)
  have hnd' :=
    ((List.perm_insertionSort (fun a b : Nat => a ≤ b)
      (pageTexts.map Prod.fst)).nodup_iff).mpr hnd
  exact hs.lt_of_le hnd'

/-- C1: for every text index (map from page number to page text, modelled
as an association list with distinct keys) and every query whose trimmed
form is non-empty, `search` returns a list sorted by page number and then
by start offset ascending; the j-th element (0-based) has
`globalIndex = j`; and its `matchIndexOnPage` is the number of earlier
matches on its own page, so the per-page rank restarts at 0 on each new
page. -/
theorem search_ordered_and_indexed (query : List Char)
    (pageTexts : List (Nat × List Char)) (hq : jsTrim query ≠ [])
    (hnd : (pageTexts.map Prod.fst).Nodup) :
    (search query pageTexts).Pairwise
      (fun m1 m2 => m1.pageNumber < m2.pageNumber ∨
        (m1.pageNumber = m2.pageNumber ∧ m1.startOffset < m2.startOffset)) ∧
    ∀ j m, (search query pageTexts)[j]? = some m →
      m.globalIndex = j ∧
      m.matchIndexOnPage =
        ((search query pageTexts).take j).countP
          (fun m' => m'.pageNumber == m.pageNumber) := by
  have hq' : query ≠ [] := jsTrim_ne_nil_of_ne hq
  rw [search, if_neg hq]
  refine ⟨searchPages_pairwise hq' _ _ (sortedKeys_pairwise _ hnd),
    fun j m h => ⟨?_, searchPages_mip _ (sortedKeys_pairwise _ hnd) _ _ _ h⟩⟩
  have := searchPages_getElem _ _ _ _ h
  omega

theorem search_ordered_and_indexed_witness :
    (jsTrim "a".data ≠ [] ∧
      (([(1, "ab".data), (2, "ba".data)] :
        List (Nat × List Char)).map Prod.fst).Nodup) ∧
    ((search "a".data [(1, "ab".data), (2, "ba".data)]).Pairwise
        (fun m1 m2 => m1.pageNumber < m2.pageNumber ∨
          (m1.pageNumber = m2.pageNumber ∧
            m1.startOffset < m2.startOffset)) ∧
      ∀ j m,
        (search "a".data [(1, "ab".data), (2, "ba".data)])[j]? = some m →
        m.globalIndex = j ∧
        m.matchIndexOnPage =
          ((search "a".data [(1, "ab".data), (2, "ba".data)]).take j).countP
            (fun m' => m'.pageNumber == m.pageNumber)) :=
  ⟨⟨by decide, by decide⟩,
    search_ordered_and_indexed "a".data [(1, "ab".data), (2, "ba".data)]
      (by decide) (by decide)⟩

/-- C2: matches returned by `search` do not overlap: whenever two matches
lie on the same page and the first precedes the second in `globalIndex`
order, the second starts at or after the first one's end offset; in
particular searching "aa" against a page whose text is "aaa" yields
exactly one match. -/
theorem search_no_overlap (query : List Char)
    (pageTexts : List (Nat × List Char))
    (hnd : (pageTexts.map Prod.fst).Nodup) :
    (∀ m1, m1 ∈ search query pageTexts → ∀ m2, m2 ∈ search query pageTexts →
      m1.pageNumber = m2.pageNumber → m1.globalIndex < m2.globalIndex →
      m1.endOffset ≤ m2.startOffset) ∧
    (search "aa".data [(1, "aaa".data)]).length = 1 := by
  refine ⟨?_, by decide⟩
  intro m1 h1 m2 h2 hpage hgi
  by_cases hq : jsTrim query = []
  · rw [search, if_pos hq] at h1
    simp at h1
  · rw [search, if_neg hq] at h1 h2
    have hpw := @searchPages_disjoint query pageTexts _ 0
      (sortedKeys_pairwise _ hnd)
    obtain ⟨j1, hj1, he1⟩ := List.getElem_of_mem h1
    obtain ⟨j2, hj2, he2⟩ := List.getElem_of_mem h2
    have hg1 := searchPages_getElem _ _ j1 m1
      (by rw [List.getElem?_eq_getElem hj1, he1])
    have hg2 := searchPages_getElem _ _ j2 m2
      (by rw [List.getElem?_eq_getElem hj2, he2])
    have hjlt : j1 < j2 := by omega
    have := List.pairwise_iff_getElem.mp hpw j1 j2 hj1 hj2 hjlt
    rw [he1, he2] at this
    exact this hpage

theorem search_no_overlap_witness :
    (([(1, "aaa".data)] : List (Nat × List Char)).map Prod.fst).Nodup ∧
    ((∀ m1, m1 ∈ search "aa".data [(1, "aaa".data)] →
      ∀ m2, m2 ∈ search "aa".data [(1, "aaa".data)] →
      m1.pageNumber = m2.pageNumber → m1.globalIndex < m2.globalIndex →
      m1.endOffset ≤ m2.startOffset) ∧
      (search "aa".data [(1, "aaa".data)]).length = 1) :=
  ⟨by decide, search_no_overlap "aa".data [(1, "aaa".data)] (by decide)⟩

/-- C3: every match returned by `search` is a case-insensitive occurrence
of the query: the lower-cased page text continues with the lower-cased
query at the match's start offset, `endOffset = startOffset + query
length`, and `matchedText` is the slice of the original (case-preserved)
page text between the offsets; in particular searching "energy" against a
page containing "Energy" returns the matched text "Energy". -/
theorem search_case_preserving (query : List Char)
    (pageTexts : List (Nat × List Char)) (m : SearchMatch)
    (hm : m ∈ search query pageTexts) :
    (m.endOffset = m.startOffset + query.length ∧
      toLowerStr query <+:
        (toLowerStr (getText pageTexts m.pageNumber)).drop m.startOffset ∧
      m.startOffset + query.length ≤
        (getText pageTexts m.pageNumber).length ∧
      m.matchedText =
        ((getText pageTexts m.pageNumber).drop m.startOffset).take
          query.length) ∧
    (search "energy".data [(1, "Energy now".data)]).map
      (fun m' => m'.matchedText) = ["Energy".data] := by
  refine ⟨?_, by decide⟩
  by_cases hq : jsTrim query = []
  · rw [search, if_pos hq] at hm
    simp at hm
  · rw [search, if_neg hq] at hm
    have hq' : query ≠ [] := jsTrim_ne_nil_of_ne hq
    obtain ⟨-, h2, h3, -⟩ := searchPages_mem _ _ _ hm
    obtain ⟨h5, h6⟩ := searchPages_bound hq' _ _ _ hm
    exact ⟨h2, h3, h5, h6⟩

theorem search_case_preserving_witness :
    ((search "energy".data [(1, "Energy now".data)])[0]? =
      some { id := "1-0", pageNumber := 1, matchIndexOnPage := 0,
             globalIndex := 0, startOffset := 0, endOffset := 6,
             matchedText := "Energy".data, isActive := true }) ∧
    (({ id := "1-0", pageNumber := 1, matchIndexOnPage := 0,
        globalIndex := 0, startOffset := 0, endOffset := 6,
        matchedText := "Energy".data, isActive := true } :
        SearchMatch).endOffset = 0 + "energy".data.length ∧
      toLowerStr "energy".data <+:
        (toLowerStr (getText [(1, "Energy now".data)] 1)).drop 0 ∧
      0 + "energy".data.length ≤ (getText [(1, "Energy now".data)] 1).length ∧
      "Energy".data = ((getText [(1, "Energy now".data)] 1).drop 0).take
        "energy".data.length) ∧
    (search "energy".data [(1, "Energy now".data)]).map
      (fun m' => m'.matchedText) = ["Energy".data] :=
  ⟨by decide,
    search_case_preserving "energy".data [(1, "Energy now".data)]
      { id := "1-0", pageNumber := 1, matchIndexOnPage := 0,
        globalIndex := 0, startOffset := 0, endOffset := 6,
        matchedText := "Energy".data, isActive := true }
      (by decide)⟩

/-! Navigator facts. -/

/-- C7: with a non-empty match list of N matches and current index i,
0 ≤ i < N, `nextMatch` sets the index to (i+1) mod N — so from N−1 it
wraps to 0 — and `previousMatch` sets it to (i−1+N) mod N — so from 0 it
wraps to N−1; with an empty match list both operations leave the state
unchanged, and the index helpers `getNextMatchIndex` and
`getPreviousMatchIndex` return −1. -/
theorem nav_wraparound (r : SearchResults) (i : Int)
    (ht : r.totalMatches = r.matchList.length)
    (hci : r.currentMatchIndex = i) (h0 : 0 ≤ i)
    (hi : i < (r.matchList.length : Int)) :
    (nextMatch (some r) = some { r with
      currentMatchIndex := (i + 1) % (r.matchList.length : Int) }) ∧
    (i = (r.matchList.length : Int) - 1 →
      nextMatch (some r) = some { r with currentMatchIndex := 0 }) ∧
    (previousMatch (some r) = some { r with
      currentMatchIndex :=
        (i - 1 + (r.matchList.length : Int)) %
          (r.matchList.length : Int) }) ∧
    (i = 0 → previousMatch (some r) = some { r with
      currentMatchIndex := (r.matchList.length : Int) - 1 }) ∧
    (getNextMatchIndex r.matchList i =
      (i + 1) % (r.matchList.length : Int)) ∧
    (getPreviousMatchIndex r.matchList i =
      (i - 1 + (r.matchList.length : Int)) % (r.matchList.length : Int)) ∧
    (∀ r' : SearchResults, r'.matchList = [] →
      nextMatch (some r') = some r' ∧ previousMatch (some r') = some r' ∧
      getNextMatchIndex r'.matchList r'.currentMatchIndex = -1 ∧
      getPreviousMatchIndex r'.matchList r'.currentMatchIndex = -1) := by
  have hne : r.matchList.length ≠ 0 := by omega
  refine ⟨?_, ?_, ?_, ?_, ?_, ?_, ?_⟩
  · simp [nextMatch, hne, ht, hci]
  · intro hlast
    have hmod : ((r.matchList.length : Int) - 1 + 1) %
        (r.matchList.length : Int) = 0 := by
      rw [Int.sub_add_cancel, Int.emod_self]
    simp [nextMatch, hne, ht, hci, hlast, hmod]
  · simp [previousMatch, hne, ht, hci]
  · intro hfirst
    have hmod : ((0 : Int) - 1 + (r.matchList.length : Int)) %
        (r.matchList.length : Int) = (r.matchList.length : Int) - 1 := by
      have he : ((0 : Int) - 1 + (r.matchList.length : Int)) =
          (r.matchList.length : Int) - 1 := by ring
      rw [he, Int.emod_eq_of_lt (by omega) (by omega)]
    simp only [previousMatch, ht, hci, hfirst]
    rw [if_neg hne, hmod]
  · simp [getNextMatchIndex, hne]
  · simp [getPreviousMatchIndex, hne]
  · intro r' h
    simp [nextMatch, previousMatch, getNextMatchIndex,
      getPreviousMatchIndex, h]

theorem nav_wraparound_witness :
    navState2.totalMatches = navState2.matchList.length ∧
    (0 : Int) ≤ 1 ∧ (1 : Int) < (navState2.matchList.length : Int) ∧
    nextMatch (some navState2) =
      some { navState2 with currentMatchIndex := 0 } ∧
    previousMatch (some { navState2 with currentMatchIndex := 0 }) =
      some { navState2 with currentMatchIndex :=
        (navState2.matchList.length : Int) - 1 } :=
  ⟨by decide, by decide, by decide,
    (nav_wraparound navState2 1
      (by decide) (by decide) (by decide) (by decide)).2.1 (by decide),
    (nav_wraparound { navState2 with currentMatchIndex := 0 } 0
      (by decide) (by decide) (by decide) (by decide)).2.2.2.1 (by decide)⟩

/-- C8 counterexample: the claim says a `goToMatch` call with an
out-of-range index "signals an invalid-argument condition to the caller".
In the contract code the call is a silent no-op: at a one-match state,
`goToMatch` with index 5 returns the unchanged state as an ordinary
(non-error) result, indistinguishable from never having been called — no
invalid-argument condition reaches the caller. -/
theorem goToMatch_silent_reject :
    goToMatch (some navState1) 5 = some navState1 ∧
    (goToMatch (some navState1) 5).isSome = true := by
  decide

/-- C8 (amended): `goToMatch` with an out-of-range index or without
results is a silent no-op — the navigator state (current index, match
list, query) is returned entirely unchanged, and no invalid-argument
signal is produced for the caller; for 0 ≤ i < the match count it sets the
current match index to i. -/
theorem goToMatch_bounds (r : SearchResults) (i : Int) :
    ((i < 0 ∨ (r.matchList.length : Int) ≤ i) →
      goToMatch (some r) i = some r) ∧
    goToMatch none i = none ∧
    (0 ≤ i → i < (r.matchList.length : Int) →
      goToMatch (some r) i = some { r with currentMatchIndex := i }) := by
  refine ⟨fun h => ?_, rfl, fun h1 h2 => ?_⟩
  · simp only [goToMatch, if_pos h]
  · have hn : ¬(i < 0 ∨ (r.matchList.length : Int) ≤ i) := by omega
    simp only [goToMatch, if_neg hn]

theorem goToMatch_bounds_witness :
    (((5 : Int) < 0 ∨ (navState1.matchList.length : Int) ≤ 5) →
      goToMatch (some navState1) 5 = some navState1) ∧
    goToMatch none 5 = none ∧
    ((0 : Int) ≤ 5 → (5 : Int) < (navState1.matchList.length : Int) →
      goToMatch (some navState1) 5 =
        some { navState1 with currentMatchIndex := 5 }) ∧
    goToMatch (some navState1) 5 = some navState1 ∧
    goToMatch (some navState1) 0 =
      some { navState1 with currentMatchIndex := 0 } :=
  ⟨(goToMatch_bounds navState1 5).1, (goToMatch_bounds navState1 5).2.1,
    (goToMatch_bounds navState1 5).2.2,
    (goToMatch_bounds navState1 5).1 (by decide),
    (goToMatch_bounds navState1 0).2.2 (by decide) (by decide)⟩

theorem nextMatch_matchList (st : Option SearchResults)
    (r' : SearchResults) (h : nextMatch st = some r') :
    ∃ r, st = some r ∧ r'.matchList = r.matchList := by
  cases st with
  | none => simp [nextMatch] at h
  | some r =>
    refine ⟨r, rfl, ?_⟩
    by_cases hl : r.matchList.length = 0
    · simp only [nextMatch, if_pos hl] at h
      obtain rfl := Option.some.inj h
      rfl
    · simp only [nextMatch, if_neg hl] at h
      obtain rfl := Option.some.inj h
      rfl

theorem previousMatch_matchList (st : Option SearchResults)
    (r' : SearchResults) (h : previousMatch st = some r') :
    ∃ r, st = some r ∧ r'.matchList = r.matchList := by
  cases st with
  | none => simp [previousMatch] at h
  | some r =>
    refine ⟨r, rfl, ?_⟩
    by_cases hl : r.matchList.length = 0
    · simp only [previousMatch, if_pos hl] at h
      obtain rfl := Option.some.inj h
      rfl
    · simp only [previousMatch, if_neg hl] at h
      obtain rfl := Option.some.inj h
      rfl

theorem applyNav_matchList :
    ∀ (ops : List Bool) (st : Option SearchResults) (r' : SearchResults),
      applyNav ops st = some r' →
      ∃ r, st = some r ∧ r'.matchList = r.matchList := by
  intro ops
  induction ops with
  | nil =>
    intro st r' h
    exact ⟨r', h, rfl⟩
  | cons b rest ih =>
    intro st r' h
    simp only [applyNav] at h
    obtain ⟨r1, hr1, he1⟩ := ih _ _ h
    cases b with
    | true =>
      obtain ⟨r, hst, he2⟩ := nextMatch_matchList _ _ hr1
      exact ⟨r, hst, he1.trans he2⟩
    | false =>
      obtain ⟨r, hst, he2⟩ := previousMatch_matchList _ _ hr1
      exact ⟨r, hst, he1.trans he2⟩

theorem search_getElem (query : List Char)
    (pageTexts : List (Nat × List Char)) (j : Nat) (m : SearchMatch)
    (h : (search query pageTexts)[j]? = some m) : m.globalIndex = j := by
  by_cases hq : jsTrim query = []
  · rw [search, if_pos hq] at h
    simp at h
  · rw [search, if_neg hq] at h
    have := searchPages_getElem _ _ _ _ h
    omega

theorem search_isActive_eq (query : List Char)
    (pageTexts : List (Nat × List Char)) (m : SearchMatch)
    (hm : m ∈ search query pageTexts) :
    m.isActive = (m.globalIndex == 0) := by
  by_cases hq : jsTrim query = []
  · rw [search, if_pos hq] at hm
    simp at hm
  · rw [search, if_neg hq] at hm
    exact (searchPages_mem _ _ _ hm).2.2.2

/-- In a non-empty search result, the active flag is set on exactly the
first match (globalIndex 0) and on no other. -/
theorem search_active_filter (query : List Char)
    (pageTexts : List (Nat × List Char))
    (hne : search query pageTexts ≠ []) :
    ((search query pageTexts).filter (fun m => m.isActive)).map
      (fun m => m.globalIndex) = [0] := by
  cases hL : search query pageTexts with
  | nil => exact absurd hL hne
  | cons x xs =>
    have hx0 : (search query pageTexts)[0]? = some x := by
      rw [hL]
      simp
    have hgx : x.globalIndex = 0 := search_getElem _ _ 0 x hx0
    have hax : x.isActive = true := by
      rw [search_isActive_eq query pageTexts x
        (by rw [hL]; exact List.mem_cons_self x xs), hgx]
      rfl
    have htail : ∀ y ∈ xs, ¬(y.isActive = true) := by
      intro y hy
      obtain ⟨j, hj, he⟩ := List.getElem_of_mem hy
      have hy' : (search query pageTexts)[j + 1]? = some y := by
        rw [hL, List.getElem?_cons_succ, List.getElem?_eq_getElem hj, he]
      have hg := search_getElem _ _ (j + 1) y hy'
      rw [search_isActive_eq query pageTexts y
        (by rw [hL]; exact List.mem_cons_of_mem _ hy), hg]
      simp
    rw [List.filter_cons_of_pos hax, List.filter_eq_nil_iff.mpr htail]
    simp [hgx]

/-- C4 counterexample: search "a" over the one-page text "aa" yields two
matches; after one `nextMatch` the navigator's current index is 1, yet the
only match flagged `isActive` is still the one with `globalIndex` 0 —
navigation never re-marks the active flag, so the flagged match's
`globalIndex` does not equal the navigator's current index. -/
theorem nextMatch_active_stale :
    (nextMatch (performSearch "a".data [(1, "aa".data)])).map
      (fun r => (r.currentMatchIndex,
        (r.matchList.filter (fun m => m.isActive)).map
          (fun m => m.globalIndex))) = some (1, [0]) ∧
    (1 : Int) ≠ (0 : Int) := by
  constructor
  · decide
  · decide

/-- C4 (amended): in the has-results state, after any sequence of
next-match and previous-match operations, exactly one match in the list
has `isActive = true`, and it is always the match with `globalIndex` 0:
the operations update only the current index and never re-mark the active
flag, so the flagged match's `globalIndex` equals the navigator's current
index exactly when that index is 0 — in particular immediately after the
search, when the index starts at 0. -/
theorem nav_active_unique (query : List Char)
    (pageTexts : List (Nat × List Char)) (ops : List Bool)
    (r : SearchResults)
    (h : applyNav ops (performSearch query pageTexts) = some r)
    (hne : r.matchList ≠ []) :
    ((r.matchList.filter (fun m => m.isActive)).map
      (fun m => m.globalIndex) = [0]) ∧
    (ops = [] → r.currentMatchIndex = 0) := by
  obtain ⟨r0, hr0, hml⟩ := applyNav_matchList ops _ r h
  by_cases hq : (jsTrim query).length = 0
  · rw [performSearch, if_pos hq] at hr0
    simp at hr0
  · rw [performSearch, if_neg hq] at hr0
    have hr0' := (Option.some.inj hr0).symm
    have hml0 : r0.matchList = search query pageTexts := by
      rw [hr0']
    constructor
    · rw [hml, hml0]
      refine search_active_filter query pageTexts ?_
      rw [← hml0, ← hml]
      exact hne
    · intro hops
      subst hops
      simp only [applyNav] at h
      rw [performSearch, if_neg hq] at h
      obtain rfl := Option.some.inj h
      have hlen : 0 < (search query pageTexts).length := by
        rw [← hml0]
        rw [hml] at hne
        exact List.length_pos.mpr (by rw [hml0] at hne ⊢; exact hne)
      simp [hlen]

theorem nav_active_unique_witness :
    applyNav [true] (performSearch "a".data [(1, "aa".data)]) =
      some navState2 ∧
    navState2.matchList ≠ [] ∧
    (((navState2.matchList.filter (fun m => m.isActive)).map
      (fun m => m.globalIndex) = [0]) ∧
      ([true] = ([] : List Bool) → navState2.currentMatchIndex = 0)) :=
  ⟨by decide, by decide,
    nav_active_unique "a".data [(1, "aa".data)] [true] navState2
      (by decide) (by decide)⟩

/-! Visibility-tracker facts. -/

/-- Ascending insertion sort of a duplicate-free Nat list is strictly
increasing. -/
theorem insertionSort_lt_of_nodup (l : List Nat) (hnd : l.Nodup) :
    (List.insertionSort (· ≤ ·) l).Pairwise (· < ·) := by
  have hs := List.sorted_insertionSort (fun a b : Nat => a ≤ b) l
  have hnd' :=
    ((List.perm_insertionSort (fun a b : Nat => a ≤ b) l).nodup_iff).mpr hnd
  exact hs.lt_of_le hnd'

/-- One visibility event preserves a strictly ascending visible list. -/
theorem reportVisibility_sorted_step (th : ℚ) (st : VisState) (page : Nat)
    (r : ℚ) (b : Bool) (hs : st.visiblePages.Pairwise (· < ·)) :
    (reportVisibility th st page r b).visiblePages.Pairwise (· < ·) := by
  by_cases hp : page = 0
  · simpa [reportVisibility, hp] using hs
  · cases b with
    | false =>
      simp only [reportVisibility, if_neg hp, Bool.false_eq_true,
        if_false]
      exact hs.sublist (List.filter_sublist _)
    | true =>
      by_cases hm : page ∈ st.visiblePages
      · simpa [reportVisibility, hp, hm] using hs
      · have hgoal : (reportVisibility th st page r true).visiblePages =
            List.insertionSort (· ≤ ·) (st.visiblePages ++ [page]) := by
          simp [reportVisibility, hp, hm]
        rw [hgoal]
        refine insertionSort_lt_of_nodup _ ?_
        have hnd : st.visiblePages.Nodup :=
          hs.imp (fun h => Nat.ne_of_lt h)
        simp [List.nodup_append, hnd, hm]

/-- C10: visibility events keep the visible-page list duplicate-free and
strictly ascending: an intersecting event for an already-present page
leaves the list unchanged (insertion happens only if absent, followed by
an ascending re-sort), a non-intersecting event removes every occurrence
of the page, every page occurs at most once, and any fold of events from
the initial state yields a strictly ascending list. -/
theorem visibility_sorted_nodup (th : ℚ) (st : VisState) (page : Nat)
    (r : ℚ) (b : Bool) (hp : page ≠ 0)
    (hs : st.visiblePages.Pairwise (· < ·)) :
    ((reportVisibility th st page r b).visiblePages.Pairwise (· < ·)) ∧
    (b = true → page ∈ st.visiblePages →
      (reportVisibility th st page r b).visiblePages = st.visiblePages) ∧
    (b = false → page ∉ (reportVisibility th st page r b).visiblePages) ∧
    (∀ p', (reportVisibility th st page r b).visiblePages.count p' ≤ 1) ∧
    (∀ events, (runVis th events).visiblePages.Pairwise (· < ·)) := by
  refine ⟨reportVisibility_sorted_step th st page r b hs, ?_, ?_, ?_, ?_⟩
  · intro hb hm
    subst hb
    simp [reportVisibility, hp, hm]
  · intro hb
    subst hb
    simp [reportVisibility, hp]
  · intro p'
    have hsorted := reportVisibility_sorted_step th st page r b hs
    have hnd : (reportVisibility th st page r b).visiblePages.Nodup :=
      hsorted.imp (fun h => Nat.ne_of_lt h)
    exact List.nodup_iff_count_le_one.mp hnd p'
  · intro events
    have hfold : ∀ (evs : List (Nat × ℚ × Bool)) (s : VisState),
        s.visiblePages.Pairwise (· < ·) →
        ((evs.foldl (fun s' e => reportVisibility th s' e.1 e.2.1 e.2.2)
          s).visiblePages.Pairwise (· < ·)) := by
      intro evs
      induction evs with
      | nil =>
        intro s hs'
        exact hs'
      | cons e rest ih =>
        intro s hs'
        exact ih _ (reportVisibility_sorted_step th s e.1 e.2.1 e.2.2 hs')
    exact hfold events initVis (by simp [initVis])

theorem visibility_sorted_nodup_witness :
    (3 : Nat) ≠ 0 ∧
    (({ visiblePages := [2, 5], activePage := 2 } :
      VisState).visiblePages.Pairwise (· < ·)) ∧
    (((reportVisibility (mkRat 1 2) { visiblePages := [2, 5], activePage := 2 }
        3 (mkRat 3 10) true).visiblePages.Pairwise (· < ·)) ∧
      (true = true → 3 ∈ ({ visiblePages := [2, 5], activePage := 2 } :
        VisState).visiblePages →
        (reportVisibility (mkRat 1 2)
          { visiblePages := [2, 5], activePage := 2 } 3 (mkRat 3 10)
          true).visiblePages =
          ({ visiblePages := [2, 5], activePage := 2 } :
            VisState).visiblePages) ∧
      (true = false → 3 ∉ (reportVisibility (mkRat 1 2)
        { visiblePages := [2, 5], activePage := 2 } 3 (mkRat 3 10)
        true).visiblePages) ∧
      (∀ p', (reportVisibility (mkRat 1 2)
        { visiblePages := [2, 5], activePage := 2 } 3 (mkRat 3 10)
        true).visiblePages.count p' ≤ 1) ∧
      (∀ events, (runVis (mkRat 1 2) events).visiblePages.Pairwise
        (· < ·))) :=
  ⟨by decide, by decide,
    visibility_sorted_nodup (mkRat 1 2)
      { visiblePages := [2, 5], activePage := 2 } 3 (mkRat 3 10) true
      (by decide) (by decide)⟩

/-- C5 counterexample: report page 5 intersecting at ratio 4/5, then page
6 intersecting at ratio 3/5, threshold 1/2.  Both pages are visible and
the highest reported ratio among them belongs to page 5 (4/5 ≥ 1/2), so
the claim requires the active page to be 5; the tracker instead sets the
active page to 6, the page of the latest at-or-above-threshold event. -/
theorem visibility_not_max_ratio :
    (runVis (mkRat 1 2)
      [(5, mkRat 4 5, true), (6, mkRat 3 5, true)]).visiblePages =
      [5, 6] ∧
    (runVis (mkRat 1 2)
      [(5, mkRat 4 5, true), (6, mkRat 3 5, true)]).activePage = 6 ∧
    (6 : Nat) ≠ 5 := by
  refine ⟨by decide, by decide, by decide⟩

/-- C5 (amended): an intersecting event whose ratio is at least the
threshold sets the active page to the reported page — regardless of
whether another visible page holds a higher intersection ratio; an
intersecting event below the threshold, or a non-intersecting event,
leaves the active page unchanged. -/
theorem reportVisibility_active_update (th : ℚ) (st : VisState)
    (page : Nat) (r : ℚ) (hp : page ≠ 0) :
    (th ≤ r → (reportVisibility th st page r true).activePage = page) ∧
    (r < th → (reportVisibility th st page r true).activePage =
      st.activePage) ∧
    ((reportVisibility th st page r false).activePage = st.activePage) := by
  refine ⟨fun h => ?_, fun h => ?_, ?_⟩
  · simp [reportVisibility, hp, h]
  · simp [reportVisibility, hp, not_le.mpr h]
  · simp [reportVisibility, hp]

theorem reportVisibility_active_update_witness :
    (3 : Nat) ≠ 0 ∧
    ((mkRat 1 2 ≤ mkRat 3 5 →
      (reportVisibility (mkRat 1 2) initVis 3 (mkRat 3 5)
        true).activePage = 3) ∧
    (mkRat 3 5 < mkRat 1 2 →
      (reportVisibility (mkRat 1 2) initVis 3 (mkRat 3 5)
        true).activePage = initVis.activePage) ∧
    ((reportVisibility (mkRat 1 2) initVis 3 (mkRat 3 5)
      false).activePage = initVis.activePage)) ∧
    (reportVisibility (mkRat 1 2) initVis 3 (mkRat 3 5) true).activePage =
      3 ∧
    (reportVisibility (mkRat 1 2) initVis 3 (mkRat 2 5) true).activePage =
      initVis.activePage :=
  ⟨by decide,
    reportVisibility_active_update (mkRat 1 2) initVis 3 (mkRat 3 5)
      (by decide),
    (reportVisibility_active_update (mkRat 1 2) initVis 3 (mkRat 3 5)
      (by decide)).1 (by decide),
    (reportVisibility_active_update (mkRat 1 2) initVis 3 (mkRat 2 5)
      (by decide)).2.1 (by decide)⟩

/-- C6 counterexample: pages 1 (ratio 3/5) and 2 (ratio 2/5) become
visible — page 1 becomes the active page — then page 1 stops
intersecting.  The visible set is now the non-empty [2], but the active
page is still 1, which is not a member: removing the currently active
page does not re-point the active page at a still-visible page. -/
theorem visibility_active_not_visible :
    (runVis (mkRat 1 2) [(1, mkRat 3 5, true), (2, mkRat 2 5, true),
      (1, 0, false)]).visiblePages = [2] ∧
    (runVis (mkRat 1 2) [(1, mkRat 3 5, true), (2, mkRat 2 5, true),
      (1, 0, false)]).activePage = 1 ∧
    (runVis (mkRat 1 2) [(1, mkRat 3 5, true), (2, mkRat 2 5, true),
      (1, 0, false)]).activePage ∉
      (runVis (mkRat 1 2) [(1, mkRat 3 5, true), (2, mkRat 2 5, true),
        (1, 0, false)]).visiblePages := by
  refine ⟨by decide, by decide, by decide⟩

/-- C6 (amended): the active page need not belong to the visible set:
removal events never update it, even when they remove the active page
itself while other pages stay visible.  What does hold is that after an
intersecting event whose ratio reaches the threshold, the (new) active
page belongs to the visible set. -/
theorem reportVisibility_active_mem (th : ℚ) (st : VisState) (page : Nat)
    (r : ℚ) (hp : page ≠ 0) (hr : th ≤ r) :
    (reportVisibility th st page r true).activePage ∈
      (reportVisibility th st page r true).visiblePages ∧
    (∀ p' r', (reportVisibility th st p' r' false).activePage =
      st.activePage) := by
  constructor
  · by_cases hm : page ∈ st.visiblePages
    · simp [reportVisibility, hp, hr, hm]
    · have hset : (reportVisibility th st page r true).visiblePages =
          List.insertionSort (· ≤ ·) (st.visiblePages ++ [page]) := by
        simp [reportVisibility, hp, hm]
      have hact : (reportVisibility th st page r true).activePage =
          page := by
        simp [reportVisibility, hp, hr]
      rw [hset, hact]
      have hin : page ∈ st.visiblePages ++ [page] := by simp
      exact ((List.perm_insertionSort (fun a b : Nat => a ≤ b) _).mem_iff).mpr
        hin
  · intro p' r'
    by_cases hp' : p' = 0
    · simp [reportVisibility, hp']
    · simp [reportVisibility, hp']

theorem reportVisibility_active_mem_witness :
    (6 : Nat) ≠ 0 ∧ mkRat 1 2 ≤ mkRat 3 5 ∧
    ((reportVisibility (mkRat 1 2) { visiblePages := [5], activePage := 5 }
        6 (mkRat 3 5) true).activePage ∈
      (reportVisibility (mkRat 1 2) { visiblePages := [5], activePage := 5 }
        6 (mkRat 3 5) true).visiblePages ∧
      (∀ p' r', (reportVisibility (mkRat 1 2)
        { visiblePages := [5], activePage := 5 } p' r' false).activePage =
        ({ visiblePages := [5], activePage := 5 } :
          VisState).activePage)) :=
  ⟨by decide, by decide,
    reportVisibility_active_mem (mkRat 1 2)
      { visiblePages := [5], activePage := 5 } 6 (mkRat 3 5)
      (by decide) (by decide)⟩

/-! Highlight-rendering facts. -/

theorem jsSubstring_to_end (s : List Char) (last : Nat) :
    jsSubstring s last s.length = s.drop last := by
  by_cases h : last ≤ s.length
  · rw [jsSubstring_eq h (le_refl _)]
    exact List.take_of_length_le (by simp)
  · push_neg at h
    rw [List.drop_eq_nil_of_le (le_of_lt h)]
    simp only [jsSubstring, List.take_eq_nil_iff]
    left
    omega

theorem highlightGo_acc (text : List Char) (act : Option String) :
    ∀ (ms : List SearchMatch) (last : Nat) (acc : List Char),
      highlightGo text act ms last acc =
        acc ++ highlightGo text act ms last [] := by
  have key : ∀ (ms : List SearchMatch) (last : Nat) (acc1 acc2 : List Char),
      highlightGo text act ms last (acc1 ++ acc2) =
        acc1 ++ highlightGo text act ms last acc2 := by
    intro ms
    induction ms with
    | nil =>
      intro last acc1 acc2
      simp [highlightGo, List.append_assoc]
    | cons m rest ih =>
      intro last acc1 acc2
      simp only [highlightGo, List.append_assoc]
      rw [ih]
  intro ms last acc
  have h := key ms last acc []
  simpa using h

theorem highlightGo_spec (text : List Char) (act : Option String) :
    ∀ (ms : List SearchMatch) (last : Nat),
      (∀ m ∈ ms, last ≤ m.startOffset) →
      (∀ m ∈ ms, m.startOffset ≤ m.endOffset ∧ m.endOffset ≤ text.length) →
      ms.Pairwise (fun a b => a.endOffset ≤ b.startOffset) →
      highlightGo text act ms last [] = specRender text act ms last := by
  intro ms
  induction ms with
  | nil =>
    intro last _ _ _
    simp only [highlightGo, specRender, List.nil_append]
    rw [jsSubstring_to_end]
  | cons m rest ih =>
    intro last hlast hin hchain
    have hm0 : last ≤ m.startOffset := hlast m (List.mem_cons_self m rest)
    have hse := hin m (List.mem_cons_self m rest)
    rw [highlightGo, highlightGo_acc,
      ih m.endOffset (List.pairwise_cons.mp hchain).1
        (fun m' hm' => hin m' (List.mem_cons_of_mem _ hm'))
        (List.pairwise_cons.mp hchain).2,
      specRender, jsSubstring_eq hm0 (le_trans hse.1 hse.2)]
    simp [List.append_assoc]

theorem jsSeg_append (l : List Char) (a b : Nat) (hab : a ≤ b) :
    (l.drop a).take (b - a) ++ l.drop b = l.drop a := by
  conv_rhs => rw [← List.take_append_drop (b - a) (l.drop a)]
  congr 1
  rw [List.drop_drop]
  congr 1
  omega

theorem specRaw_concat (text : List Char) :
    ∀ (ms : List SearchMatch) (last : Nat),
      (∀ m ∈ ms, last ≤ m.startOffset) →
      (∀ m ∈ ms, m.startOffset ≤ m.endOffset ∧
        m.matchedText = (text.drop m.startOffset).take
          (m.endOffset - m.startOffset)) →
      ms.Pairwise (fun a b => a.endOffset ≤ b.startOffset) →
      specRaw text ms last = text.drop last := by
  intro ms
  induction ms with
  | nil =>
    intro last _ _ _
    rfl
  | cons m rest ih =>
    intro last hlast hin hchain
    have hm0 : last ≤ m.startOffset := hlast m (List.mem_cons_self m rest)
    obtain ⟨hse, hmt⟩ := hin m (List.mem_cons_self m rest)
    rw [specRaw, ih m.endOffset (List.pairwise_cons.mp hchain).1
      (fun m' hm' => hin m' (List.mem_cons_of_mem _ hm'))
      (List.pairwise_cons.mp hchain).2, hmt, List.append_assoc,
      jsSeg_append text m.startOffset m.endOffset hse,
      jsSeg_append text last m.startOffset hm0]

/-- C9 counterexample: with an empty match set, `highlightMatches` returns
the text verbatim — the characters `<` and `>` in the (single, unmatched)
span are not escaped at all, although the claim requires every non-matched
span to be escaped for the display layer; compare with `escapeHtml`. -/
theorem highlightMatches_empty_unescaped :
    highlightMatches "<b>".data [] none = "<b>".data ∧
    escapeHtml "<b>".data ≠ "<b>".data := by
  refine ⟨by decide, by decide⟩

/-- C9 (amended): for a set of matches that, sorted by start offset, is
non-overlapping and applicable to the text (offsets within bounds,
matchedText the slice between them), `highlightMatches` renders exactly
the spec decomposition `specRender`: every gap of non-matched text is
escaped, and each match span is wrapped in a marker whose state is active
precisely for the match whose id equals the active-match id; the raw
(unescaped, unwrapped) spans of that decomposition concatenate back to
the original text.  Exception forced by the code: when the match set is
empty the text is returned verbatim, with no escaping pass. -/
theorem highlightMatches_render (text : List Char) (ms : List SearchMatch)
    (act : Option String)
    (hchain : (List.insertionSort
      (fun a b => a.startOffset ≤ b.startOffset) ms).Pairwise
        (fun a b => a.endOffset ≤ b.startOffset))
    (happ : ∀ m ∈ ms, m.startOffset ≤ m.endOffset ∧
      m.endOffset ≤ text.length ∧
      m.matchedText = (text.drop m.startOffset).take
        (m.endOffset - m.startOffset)) :
    (highlightMatches text ms act = if ms.length = 0 then text
      else specRender text act
        (List.insertionSort (fun a b => a.startOffset ≤ b.startOffset) ms)
        0) ∧
    specRaw text
      (List.insertionSort (fun a b => a.startOffset ≤ b.startOffset) ms)
      0 = text := by
  have hmem : ∀ m ∈ List.insertionSort
      (fun a b => a.startOffset ≤ b.startOffset) ms, m ∈ ms :=
    fun m hm => ((List.perm_insertionSort _ ms).mem_iff).mp hm
  constructor
  · rw [highlightMatches]
    by_cases hlen : ms.length = 0
    · rw [if_pos hlen, if_pos hlen]
    · rw [if_neg hlen, if_neg hlen]
      exact highlightGo_spec text act _ 0 (fun m _ => Nat.zero_le _)
        (fun m hm => ⟨(happ m (hmem m hm)).1, (happ m (hmem m hm)).2.1⟩)
        hchain
  · have hconcat := specRaw_concat text _ 0 (fun m _ => Nat.zero_le _)
      (fun m hm => ⟨(happ m (hmem m hm)).1, (happ m (hmem m hm)).2.2⟩)
      hchain
    simpa using hconcat

theorem highlightMatches_render_witness :
    ((List.insertionSort (fun a b => a.startOffset ≤ b.startOffset)
      [highlightMatch1]).Pairwise
        (fun a b => a.endOffset ≤ b.startOffset)) ∧
    (∀ m ∈ [highlightMatch1], m.startOffset ≤ m.endOffset ∧
      m.endOffset ≤ "xay".data.length ∧
      m.matchedText = ("xay".data.drop m.startOffset).take
        (m.endOffset - m.startOffset)) ∧
    ((highlightMatches "xay".data [highlightMatch1] (some "1-0") =
      if ([highlightMatch1] : List SearchMatch).length = 0 then "xay".data
      else specRender "xay".data (some "1-0")
        (List.insertionSort (fun a b => a.startOffset ≤ b.startOffset)
          [highlightMatch1]) 0) ∧
      specRaw "xay".data
        (List.insertionSort (fun a b => a.startOffset ≤ b.startOffset)
          [highlightMatch1]) 0 = "xay".data) :=
  ⟨by decide, by decide,
    highlightMatches_render "xay".data [highlightMatch1] (some "1-0")
      (by decide) (by decide)⟩
